import Mathlib

/-!
Shallow embedding of the ts-lib-pgconnector connector core
(src/lib/index.js): configuration validation, the Registry maps from
database name to pool handle and from repository name to
(pool, databaseName), and the connect/getPool lookup operations.

Pool handles are opaque capabilities in the source (spec section 6); we
model a handle as a `Nat` drawn from a counter `nextPool`, so that
`new pg.Pool(conf)` is "allocate a fresh handle".  JavaScript `Map`s are
modelled as association lists with JS `Map.set` / `Map.get` semantics
(set replaces in place or appends; get returns the first match).
-/

set_option autoImplicit false

namespace PgConnector

/-- JavaScript runtime values, restricted to the shapes the validation
code in src/lib/index.js distinguishes: `typeof`, `Array.isArray`,
`instanceof Date`, string contents, and object fields. -/
inductive JsVal where
  | undefined
  | nullV
  | boolV (b : Bool)
  | num (n : Int)
  | str (s : String)
  | arr (elems : List JsVal)
  | obj (fields : List (String × JsVal))
  | date

/-- The `elv` package used throughout src/lib/index.js: a value is
"defined" when it is neither `undefined` nor `null`. -/
def elv : JsVal → Bool
  | .undefined => false
  | .nullV => false
  | _ => true

/-- src/lib/index.js `isPojo`: `typeof obj === 'object' &&
!Array.isArray(obj) && !(obj instanceof Date)`.  Note that in JS
`typeof null === 'object'`, so `isPojo(null)` is `true` in the source;
every call site guards with `elv` first. -/
def isPojo : JsVal → Bool
  | .obj _ => true
  | .nullV => true
  | _ => false

/-- src/lib/index.js `isNonEmptyString`. -/
def isNonEmptyString : JsVal → Bool
  | .str s => 0 < s.length
  | _ => false

/-- The string content of a JS value already known to be a string
(used after an `isNonEmptyString` check has passed). -/
def jsStr : JsVal → String
  | .str s => s
  | _ => ""

/-- JS `Map.prototype.get` on an association list: first matching key. -/
def mapGet {α : Type} : List (String × α) → String → Option α
  | [], _ => none
  | (k0, v) :: rest, k => if k0 = k then some v else mapGet rest k

/-- JS `Map.prototype.has`. -/
def mapHas {α : Type} (m : List (String × α)) (k : String) : Bool :=
  (mapGet m k).isSome

/-- JS `Map.prototype.set`: replace the binding in place when the key is
present, otherwise append it. -/
def mapSet {α : Type} : List (String × α) → String → α → List (String × α)
  | [], k, v => [(k, v)]
  | (k0, v0) :: rest, k, v =>
    if k0 = k then (k0, v) :: rest else (k0, v0) :: mapSet rest k v

/-- JS property access `o[k]`: a missing field reads as `undefined`.
Property access on non-objects is not exercised by the claims. -/
def objGet : JsVal → String → JsVal
  | .obj fields, k =>
    match mapGet fields k with
    | some v => v
    | none => .undefined
  | _, _ => .undefined

/-- The `(key, value)` pairs iterated by `Object.keys(o)` followed by
`o[key]`.  JS runtime objects have unique keys; theorems that rely on
uniqueness take a `Nodup` hypothesis on the key list. -/
def objEntries : JsVal → List (String × JsVal)
  | .obj fields => fields
  | _ => []

/-- The branch identities of the `msg` table of src/lib/index.js.
`noRepositories` is referenced by the source (in `validateConf` and
`_fillReposMap`) but is absent from the `msg` table, so its message text
is `undefined` in JS; the branch is still a distinct configuration
fault. -/
inductive ErrMsg where
  | argCallback
  | argEventNameStr
  | argListenerFn
  | argPgLib
  | argProvidersArray
  | argProvidersLen
  | argRepoStr
  | dbConfHostStr
  | dbConfPojo
  | databasesPojo
  | noDatabases
  | noRepositories
  | reposPojo
  | repoConfMapping
  | repoConfStr
  | sharedInvalid
deriving DecidableEq

/-- The faults raised by the connector core: `ConfigurationError`
(src/lib/errors.js, carrying auxiliary `data`), `TypeError` for usage
faults, and `MissingRepositoryError` for well-formed but unmapped
repository names. -/
inductive PCError where
  | config (message : ErrMsg) (data : JsVal)
  | typeErr (message : ErrMsg)
  | missingRepo (repository : String)

/-- Whether a fault is a `ConfigurationError`. -/
def PCError.isConfig : PCError → Bool
  | .config _ _ => true
  | _ => false

/-- The `ConfigurationError` branch identity of a fault, if it is one. -/
def PCError.configMsg : PCError → Option ErrMsg
  | .config m _ => some m
  | _ => none

/-- A stored database entry `{name, pool}` (src/lib/index.js line 165). -/
structure DatabaseEntry where
  name : String
  pool : Nat
deriving DecidableEq

/-- A stored repository entry `{name, pool, databaseName}`
(src/lib/index.js line 209). -/
structure RepositoryEntry where
  name : String
  pool : Nat
  databaseName : String
deriving DecidableEq

/-- The mutable state of a `Connector`: the `databases` and
`repositories` maps, plus the allocation counter standing in for the
opaque pool-opening capability. -/
structure Connector where
  databases : List (String × DatabaseEntry)
  repositories : List (String × RepositoryEntry)
  nextPool : Nat
deriving DecidableEq

/-- A freshly constructed `Connector`: both maps empty. -/
def Connector.init : Connector :=
  { databases := [], repositories := [], nextPool := 0 }

/-- src/lib/index.js `validateDatabaseConf`: a database entry must be a
defined POJO whose `host` field is a non-empty string. -/
def validateDatabaseConf (key : String) (dbConf : JsVal) : Option PCError :=
  if !elv dbConf || !isPojo dbConf then
    some (.config .dbConfPojo (.obj [("key", .str key), ("value", dbConf)]))
  else if !isNonEmptyString (objGet dbConf "host") then
    some (.config .dbConfHostStr (.obj [("key", .str key), ("value", dbConf)]))
  else
    none

/-- src/lib/index.js `validateConf`: top-level shape checks, in source
order — `databases` defined, `databases` a POJO, `repositories`
defined, `repositories` a POJO. -/
def validateConf (conf : JsVal) : Option PCError :=
  if !elv (objGet conf "databases") then
    some (.config .noDatabases conf)
  else if !isPojo (objGet conf "databases") then
    some (.config .databasesPojo conf)
  else if !elv (objGet conf "repositories") then
    some (.config .noRepositories conf)
  else if !isPojo (objGet conf "repositories") then
    some (.config .reposPojo conf)
  else
    none

/-- The body of the `_fillDatabasesMap` loop for one valid entry: open a
fresh pool (`new this._pg.Pool(dbConf)`) and store `{name, pool}`. -/
def applyDbEntry (c : Connector) (key : String) (_dbConf : JsVal) : Connector :=
  { c with
    databases := mapSet c.databases key { name := key, pool := c.nextPool }
    nextPool := c.nextPool + 1 }

/-- The `_fillDatabasesMap` loop: validate each entry in turn and stop
at the first failure, keeping the entries applied so far. -/
def fillDatabasesGo (c : Connector) : List (String × JsVal) → Connector × Option PCError
  | [] => (c, none)
  | (key, dbConf) :: rest =>
    match validateDatabaseConf key dbConf with
    | some e => (c, some e)
    | none => fillDatabasesGo (applyDbEntry c key dbConf) rest

/-- src/lib/index.js `_fillDatabasesMap`: an empty `databases` mapping
is itself a configuration fault; otherwise run the per-entry loop. -/
def fillDatabasesMap (c : Connector) (databases : JsVal) : Connector × Option PCError :=
  let entries := objEntries databases
  if entries.isEmpty then (c, some (.config .noDatabases .undefined))
  else fillDatabasesGo c entries

/-- src/lib/index.js `_validateRepoConf`: the mapped value must be a
non-empty string, and must name a key of `this.databases` — the
accumulated Registry map, not the snapshot being applied. -/
def validateRepoConf (c : Connector) (key : String) (repoConf : JsVal) : Option PCError :=
  if !isNonEmptyString repoConf then
    some (.config .repoConfStr (.str key))
  else if !mapHas c.databases (jsStr repoConf) then
    some (.config .repoConfMapping (.obj [("key", .str key), ("value", repoConf)]))
  else
    none

/-- The body of the `_fillReposMap` loop for one validated entry: store
`{name, pool: this.databases.get(repoConf).pool, databaseName}`.  The
`none` branch is unreachable after `validateRepoConf` has passed (JS
would throw there on a property read of `undefined`). -/
def applyRepoEntry (c : Connector) (key : String) (repoConf : JsVal) : Connector :=
  match mapGet c.databases (jsStr repoConf) with
  | some db =>
    { c with
      repositories :=
        mapSet c.repositories key
          { name := key, pool := db.pool, databaseName := jsStr repoConf } }
  | none => c

/-- The `_fillReposMap` loop: validate each entry in turn and stop at
the first failure, keeping the entries applied so far. -/
def fillReposGo (c : Connector) : List (String × JsVal) → Connector × Option PCError
  | [] => (c, none)
  | (key, repoConf) :: rest =>
    match validateRepoConf c key repoConf with
    | some e => (c, some e)
    | none => fillReposGo (applyRepoEntry c key repoConf) rest

/-- src/lib/index.js `_fillReposMap`: an empty `repositories` mapping is
itself a configuration fault; otherwise run the per-entry loop. -/
def fillReposMap (c : Connector) (repositories : JsVal) : Connector × Option PCError :=
  let entries := objEntries repositories
  if entries.isEmpty then (c, some (.config .noRepositories .undefined))
  else fillReposGo c entries

/-- src/lib/index.js `_fill`: top-level shape validation, then the
databases phase, then the repositories phase; the first fault stops the
pipeline.  Both `add` and `load` apply their merged configuration
through this one function (`add` rethrows the fault, `load` rejects its
promise with it); a JS `throw` does not roll back the maps already
mutated on `this`, so the pair returns the post state together with the
fault. -/
def Connector.fill (c : Connector) (conf : JsVal) : Connector × Option PCError :=
  match validateConf conf with
  | some e => (c, some e)
  | none =>
    match fillDatabasesMap c (objGet conf "databases") with
    | (c1, some e) => (c1, some e)
    | (c1, none) => fillReposMap c1 (objGet conf "repositories")

/-- src/lib/index.js `add` called with a single fragment: Kibbutz merges
the one fragment into an empty object, yielding that fragment, and the
result is applied through `_fill`.  The aggregator capability itself is
an external collaborator (spec section 1). -/
def Connector.add1 (c : Connector) (conf : JsVal) : Connector × Option PCError :=
  c.fill conf

/-- The Registry lookup `this.repositories.get(name)` (the `resolve`
operation of spec section 4.2). -/
def Connector.resolve (c : Connector) (repository : String) : Option RepositoryEntry :=
  mapGet c.repositories repository

/-- src/lib/index.js `getPool`: `_assertRepo` raises a `TypeError` for a
name that is not a non-empty string and a `MissingRepositoryError` for
an unmapped name, then returns the mapped pool. -/
def Connector.getPool (c : Connector) (repository : String) : Except PCError Nat :=
  if repository.length = 0 then .error (.typeErr .argRepoStr)
  else
    match mapGet c.repositories repository with
    | none => .error (.missingRepo repository)
    | some repo => .ok repo.pool

/-- The behavior of one `pool.connect(cb)` call, the pool-acquire
capability of spec section 6: it either throws synchronously or invokes
the acquisition callback once with `(err, client, done)`. -/
inductive AcquireBehavior where
  | throws (e : String)
  | callsBack (err : Option String) (client : Nat) (done : Nat)
deriving DecidableEq

/-- One invocation of the caller-supplied connect callback: `cbfn(err)`
on failure, `cbfn(null, client, done)` on success. -/
inductive CbCall where
  | err (e : String)
  | ok (client : Nat) (done : Nat)
deriving DecidableEq

/-- The settlement state of the promise returned by `connect`. -/
inductive PromiseState where
  | pending
  | resolved (client : Nat)
  | rejected (e : String)
deriving DecidableEq

/-- The observable outcome of one `connect` call that passed its
synchronous assertions: the callback invocations, the promise state,
and the payloads emitted on the `error` notification channel. -/
structure ConnectOutcome where
  cbCalls : List CbCall
  promise : PromiseState
  errorEvents : List String
deriving DecidableEq

/-- src/lib/index.js `connect`: `_assertRepo` and `assertCallback` throw
synchronously; then the promise executor calls `repo.pool.connect` in a
`try` block.  An acquisition-callback error reaches the callback and
rejects the promise; success reaches the callback as
`(null, client, done)` and resolves the promise with the client alone;
a synchronous throw from the pool is caught and emitted as an `error`
event, settling nothing.  The caller-supplied callback is modelled by
whether one was given (`hasCallback`); `assertCallback` passes in either
case. -/
def Connector.connect (c : Connector) (repository : String) (hasCallback : Bool)
    (beh : AcquireBehavior) : Except PCError ConnectOutcome :=
  if repository.length = 0 then .error (.typeErr .argRepoStr)
  else
    match mapGet c.repositories repository with
    | none => .error (.missingRepo repository)
    | some _repo =>
      match beh with
      | .throws e =>
        .ok { cbCalls := [], promise := .pending, errorEvents := [e] }
      | .callsBack (some err) _ _ =>
        .ok { cbCalls := if hasCallback then [.err err] else []
              promise := .rejected err
              errorEvents := [] }
      | .callsBack none client done =>
        .ok { cbCalls := if hasCallback then [.ok client done] else []
              promise := .resolved client
              errorEvents := [] }


/-- Every stored `RepositoryEntry` references a database name present in
the `databases` map.  Since database entries are never removed, an entry
that satisfied the reference check when it was accepted satisfies this
for the life of the Registry. -/
def RepoInv (c : Connector) : Prop :=
  ∀ (r : String) (entry : RepositoryEntry),
    mapGet c.repositories r = some entry →
    mapHas c.databases entry.databaseName = true

/-- Entry validity hypotheses for a snapshot whose `databases` object
has entries `dbs` and whose `repositories` object has entries `reps`:
every database entry passes `validateDatabaseConf`, and every
repository value is a non-empty string naming a database key of the
same snapshot. -/
def SnapshotEntriesValid (dbs reps : List (String × JsVal)) : Prop :=
  (∀ p ∈ dbs, (validateDatabaseConf p.1 p.2).isNone = true) ∧
  (∀ p ∈ reps, isNonEmptyString p.2 = true ∧ jsStr p.2 ∈ dbs.map Prod.fst)

/-- Scenario fixture: a snapshot adding database `d` and repository
`r1` mapped to it. -/
def snapA : JsVal :=
  .obj [("databases", .obj [("d", .obj [("host", .str "h")])]),
        ("repositories", .obj [("r1", .str "d")])]

/-- Scenario fixture: a snapshot re-adding database `d` and adding
repository `r2` mapped to it. -/
def snapB : JsVal :=
  .obj [("databases", .obj [("d", .obj [("host", .str "h")])]),
        ("repositories", .obj [("r2", .str "d")])]

/-- Scenario fixture: a single-database, single-repository snapshot. -/
def snapC : JsVal :=
  .obj [("databases", .obj [("d", .obj [("host", .str "h")])]),
        ("repositories", .obj [("r", .str "d")])]

/-- The `databases` entries of `snapC`. -/
def snapCDbs : List (String × JsVal) := [("d", .obj [("host", .str "h")])]

/-- The `repositories` entries of `snapC`. -/
def snapCReps : List (String × JsVal) := [("r", .str "d")]

/-! ### Association-list lemmas -/

@[simp]
theorem mapGet_mapSet_self {α : Type} (m : List (String × α)) (k : String) (v : α) :
    mapGet (mapSet m k v) k = some v := by
  induction m with
  | nil => simp [mapSet, mapGet]
  | cons p rest ih =>
    by_cases h : p.1 = k
    · simp [mapSet, mapGet, h]
    · simpa [mapSet, mapGet, h] using ih

theorem mapGet_mapSet_ne {α : Type} (m : List (String × α)) (k k0 : String) (v : α)
    (h : k0 ≠ k) : mapGet (mapSet m k v) k0 = mapGet m k0 := by
  have hsym : ¬ k = k0 := fun hh => h hh.symm
  induction m with
  | nil => simp [mapSet, mapGet, hsym]
  | cons p rest ih =>
    by_cases hp : p.1 = k
    · simp [mapSet, mapGet, hp, hsym]
    · by_cases hp0 : p.1 = k0
      · simp [mapSet, mapGet, hp, hp0, h]
      · simpa [mapSet, mapGet, hp, hp0] using ih

theorem mapHas_mapSet_mono {α : Type} (m : List (String × α)) (k k0 : String) (v : α)
    (h : mapHas m k0 = true) : mapHas (mapSet m k v) k0 = true := by
  by_cases hk : k0 = k
  · subst hk; simp [mapHas]
  · rw [mapHas, mapGet_mapSet_ne m k k0 v hk]; exact h

/-! ### Databases-phase lemmas -/

theorem applyDbEntry_repositories (c : Connector) (k : String) (v : JsVal) :
    (applyDbEntry c k v).repositories = c.repositories := rfl

theorem fillDatabasesGo_repositories (l : List (String × JsVal)) :
    ∀ c : Connector, (fillDatabasesGo c l).1.repositories = c.repositories := by
  induction l with
  | nil => intro c; rfl
  | cons p rest ih =>
    intro c
    rcases p with ⟨k, v⟩
    rw [fillDatabasesGo]
    cases validateDatabaseConf k v with
    | some e => rfl
    | none => exact ih (applyDbEntry c k v)

theorem fillDatabasesGo_nextPool_le (l : List (String × JsVal)) :
    ∀ c : Connector, c.nextPool ≤ (fillDatabasesGo c l).1.nextPool := by
  induction l with
  | nil => intro c; exact Nat.le_refl _
  | cons p rest ih =>
    intro c
    rcases p with ⟨k, v⟩
    rw [fillDatabasesGo]
    cases validateDatabaseConf k v with
    | some e => exact Nat.le_refl _
    | none => exact Nat.le_trans (Nat.le_succ _) (ih (applyDbEntry c k v))

theorem fillDatabasesGo_databases_mono (l : List (String × JsVal)) :
    ∀ (c : Connector) (k : String), mapHas c.databases k = true →
      mapHas (fillDatabasesGo c l).1.databases k = true := by
  induction l with
  | nil => intro c k h; exact h
  | cons p rest ih =>
    intro c k h
    rcases p with ⟨k0, v0⟩
    rw [fillDatabasesGo]
    cases validateDatabaseConf k0 v0 with
    | some e => exact h
    | none =>
      exact ih (applyDbEntry c k0 v0) k (mapHas_mapSet_mono _ _ _ _ h)

theorem fillDatabasesGo_ok (l : List (String × JsVal)) :
    ∀ c : Connector, (∀ p ∈ l, validateDatabaseConf p.1 p.2 = none) →
      (fillDatabasesGo c l).2 = none := by
  induction l with
  | nil => intro c _; rfl
  | cons p rest ih =>
    intro c h
    rcases p with ⟨k, v⟩
    rw [fillDatabasesGo]
    rw [h ⟨k, v⟩ (List.mem_cons_self _ _)]
    exact ih _ (fun q hq => h q (List.mem_cons_of_mem _ hq))

theorem fillDatabasesGo_get_notmem (l : List (String × JsVal)) :
    ∀ (c : Connector) (k : String), k ∉ l.map Prod.fst →
      mapGet (fillDatabasesGo c l).1.databases k = mapGet c.databases k := by
  induction l with
  | nil => intro c k _; rfl
  | cons p rest ih =>
    intro c k hk
    rcases p with ⟨k0, v0⟩
    have hne : k ≠ k0 := by
      intro hh; exact hk (by simp [hh])
    have hrest : k ∉ rest.map Prod.fst := by
      intro hh; exact hk (by simp [hh])
    rw [fillDatabasesGo]
    cases validateDatabaseConf k0 v0 with
    | some e => rfl
    | none =>
      rw [ih (applyDbEntry c k0 v0) k hrest]
      exact mapGet_mapSet_ne _ _ _ _ hne

theorem fillDatabasesGo_get_mem (l : List (String × JsVal)) :
    ∀ c : Connector, (∀ p ∈ l, validateDatabaseConf p.1 p.2 = none) →
      (l.map Prod.fst).Nodup →
      ∀ p ∈ l, ∃ db : DatabaseEntry,
        mapGet (fillDatabasesGo c l).1.databases p.1 = some db ∧
        c.nextPool ≤ db.pool ∧ db.pool < (fillDatabasesGo c l).1.nextPool := by
  induction l with
  | nil => intro c _ _ p hp; cases hp
  | cons q rest ih =>
    intro c hval hnd p hp
    rcases q with ⟨k0, v0⟩
    have hv0 : validateDatabaseConf k0 v0 = none := hval ⟨k0, v0⟩ (List.mem_cons_self _ _)
    have hndr : (rest.map Prod.fst).Nodup := (List.nodup_cons.mp (by simpa using hnd)).2
    have hk0 : k0 ∉ rest.map Prod.fst := (List.nodup_cons.mp (by simpa using hnd)).1
    rw [fillDatabasesGo, hv0]
    rcases List.mem_cons.mp hp with hph | hpt
    · subst hph
      refine ⟨{ name := k0, pool := c.nextPool }, ?_, Nat.le_refl _, ?_⟩
      · rw [fillDatabasesGo_get_notmem rest _ _ hk0]
        exact mapGet_mapSet_self _ _ _
      · have h1 : (applyDbEntry c k0 v0).nextPool ≤
            (fillDatabasesGo (applyDbEntry c k0 v0) rest).1.nextPool :=
          fillDatabasesGo_nextPool_le rest _
        exact Nat.lt_of_lt_of_le (Nat.lt_succ_self _) h1
    · rcases ih (applyDbEntry c k0 v0)
        (fun q hq => hval q (List.mem_cons_of_mem _ hq)) hndr p hpt with
        ⟨db, hget, hlo, hhi⟩
      exact ⟨db, hget, Nat.le_trans (Nat.le_succ _) hlo, hhi⟩

theorem fillDatabasesGo_err (l : List (String × JsVal)) :
    ∀ (c : Connector) (e : PCError), (fillDatabasesGo c l).2 = some e →
      ∃ pre k v post, l = pre ++ (k, v) :: post ∧
        (∀ p ∈ pre, validateDatabaseConf p.1 p.2 = none) ∧
        validateDatabaseConf k v = some e ∧
        (fillDatabasesGo c l).1 = pre.foldl (fun a p => applyDbEntry a p.1 p.2) c := by
  induction l with
  | nil => intro c e h; exact absurd h (by simp [fillDatabasesGo])
  | cons q rest ih =>
    intro c e h
    rcases q with ⟨k0, v0⟩
    rw [fillDatabasesGo] at h
    cases hv : validateDatabaseConf k0 v0 with
    | some e0 =>
      rw [hv] at h
      refine ⟨[], k0, v0, rest, rfl, by simp, ?_, ?_⟩
      · rw [hv]; exact congrArg some (by injection h)
      · rw [fillDatabasesGo, hv]; rfl
    | none =>
      rw [hv] at h
      rcases ih (applyDbEntry c k0 v0) e h with ⟨pre, k, v, post, hsplit, hpre, hke, hst⟩
      refine ⟨(k0, v0) :: pre, k, v, post, by rw [hsplit]; rfl, ?_, hke, ?_⟩
      · intro p hp
        rcases List.mem_cons.mp hp with hph | hpt
        · subst hph; exact hv
        · exact hpre p hpt
      · rw [fillDatabasesGo, hv, hst]; rfl

/-! ### Repositories-phase lemmas -/

theorem applyRepoEntry_databases (c : Connector) (k : String) (v : JsVal) :
    (applyRepoEntry c k v).databases = c.databases := by
  rw [applyRepoEntry]
  cases mapGet c.databases (jsStr v) <;> rfl

theorem applyRepoEntry_nextPool (c : Connector) (k : String) (v : JsVal) :
    (applyRepoEntry c k v).nextPool = c.nextPool := by
  rw [applyRepoEntry]
  cases mapGet c.databases (jsStr v) <;> rfl

theorem validateRepoConf_eq_of_databases (c1 c2 : Connector) (k : String) (v : JsVal)
    (h : c1.databases = c2.databases) :
    validateRepoConf c1 k v = validateRepoConf c2 k v := by
  rw [validateRepoConf, validateRepoConf, h]

theorem fillReposGo_databases (l : List (String × JsVal)) :
    ∀ c : Connector, (fillReposGo c l).1.databases = c.databases := by
  induction l with
  | nil => intro c; rfl
  | cons p rest ih =>
    intro c
    rcases p with ⟨k, v⟩
    rw [fillReposGo]
    cases validateRepoConf c k v with
    | some e => rfl
    | none => rw [ih (applyRepoEntry c k v)]; exact applyRepoEntry_databases c k v

theorem fillReposGo_nextPool (l : List (String × JsVal)) :
    ∀ c : Connector, (fillReposGo c l).1.nextPool = c.nextPool := by
  induction l with
  | nil => intro c; rfl
  | cons p rest ih =>
    intro c
    rcases p with ⟨k, v⟩
    rw [fillReposGo]
    cases validateRepoConf c k v with
    | some e => rfl
    | none => rw [ih (applyRepoEntry c k v)]; exact applyRepoEntry_nextPool c k v

theorem fillReposGo_get_notmem (l : List (String × JsVal)) :
    ∀ (c : Connector) (r : String), r ∉ l.map Prod.fst →
      mapGet (fillReposGo c l).1.repositories r = mapGet c.repositories r := by
  induction l with
  | nil => intro c r _; rfl
  | cons p rest ih =>
    intro c r hr
    rcases p with ⟨k0, v0⟩
    have hne : r ≠ k0 := by intro hh; exact hr (by simp [hh])
    have hrest : r ∉ rest.map Prod.fst := by intro hh; exact hr (by simp [hh])
    rw [fillReposGo]
    cases validateRepoConf c k0 v0 with
    | some e => rfl
    | none =>
      rw [ih (applyRepoEntry c k0 v0) r hrest]
      rw [applyRepoEntry]
      cases mapGet c.databases (jsStr v0) with
      | some db => exact mapGet_mapSet_ne _ _ _ _ hne
      | none => rfl

theorem fillReposGo_ok (l : List (String × JsVal)) :
    ∀ c : Connector, (∀ p ∈ l, validateRepoConf c p.1 p.2 = none) →
      (fillReposGo c l).2 = none := by
  induction l with
  | nil => intro c _; rfl
  | cons p rest ih =>
    intro c h
    rcases p with ⟨k, v⟩
    rw [fillReposGo, h ⟨k, v⟩ (List.mem_cons_self _ _)]
    refine ih (applyRepoEntry c k v) (fun q hq => ?_)
    rw [validateRepoConf_eq_of_databases _ c q.1 q.2 (applyRepoEntry_databases c k v)]
    exact h q (List.mem_cons_of_mem _ hq)

theorem fillReposGo_get_mem (l : List (String × JsVal)) :
    ∀ c : Connector, (∀ p ∈ l, validateRepoConf c p.1 p.2 = none) →
      (l.map Prod.fst).Nodup →
      ∀ p ∈ l, ∃ db : DatabaseEntry,
        mapGet c.databases (jsStr p.2) = some db ∧
        mapGet (fillReposGo c l).1.repositories p.1 =
          some { name := p.1, pool := db.pool, databaseName := jsStr p.2 } := by
  induction l with
  | nil => intro c _ _ p hp; cases hp
  | cons q rest ih =>
    intro c hval hnd p hp
    rcases q with ⟨k0, v0⟩
    have hv0 : validateRepoConf c k0 v0 = none := hval ⟨k0, v0⟩ (List.mem_cons_self _ _)
    have hndr : (rest.map Prod.fst).Nodup := (List.nodup_cons.mp (by simpa using hnd)).2
    have hk0 : k0 ∉ rest.map Prod.fst := (List.nodup_cons.mp (by simpa using hnd)).1
    have hhas : mapHas c.databases (jsStr v0) = true := by
      by_contra hh
      rw [Bool.not_eq_true] at hh
      rw [validateRepoConf, hh] at hv0
      rcases Bool.eq_false_or_eq_true (isNonEmptyString v0) with h1 | h1
      · rw [h1] at hv0; simp at hv0
      · rw [h1] at hv0; simp at hv0
    rcases Option.isSome_iff_exists.mp hhas with ⟨db0, hdb0⟩
    rw [fillReposGo, hv0]
    rcases List.mem_cons.mp hp with hph | hpt
    · subst hph
      refine ⟨db0, hdb0, ?_⟩
      rw [fillReposGo_get_notmem rest _ _ hk0]
      rw [applyRepoEntry, hdb0]
      exact mapGet_mapSet_self _ _ _
    · have hval1 : ∀ p ∈ rest, validateRepoConf (applyRepoEntry c k0 v0) p.1 p.2 = none := by
        intro q hq
        rw [validateRepoConf_eq_of_databases _ c q.1 q.2 (applyRepoEntry_databases c k0 v0)]
        exact hval q (List.mem_cons_of_mem _ hq)
      rcases ih (applyRepoEntry c k0 v0) hval1 hndr p hpt with ⟨db, hget, hrget⟩
      rw [applyRepoEntry_databases] at hget
      exact ⟨db, hget, hrget⟩

theorem fillReposGo_err (l : List (String × JsVal)) :
    ∀ (c : Connector) (e : PCError), (fillReposGo c l).2 = some e →
      ∃ pre k v post, l = pre ++ (k, v) :: post ∧
        (∀ p ∈ pre, validateRepoConf c p.1 p.2 = none) ∧
        validateRepoConf c k v = some e ∧
        (fillReposGo c l).1 = pre.foldl (fun a p => applyRepoEntry a p.1 p.2) c := by
  induction l with
  | nil => intro c e h; exact absurd h (by simp [fillReposGo])
  | cons q rest ih =>
    intro c e h
    rcases q with ⟨k0, v0⟩
    rw [fillReposGo] at h
    cases hv : validateRepoConf c k0 v0 with
    | some e0 =>
      rw [hv] at h
      refine ⟨[], k0, v0, rest, rfl, by simp, ?_, ?_⟩
      · rw [hv]; exact congrArg some (by injection h)
      · rw [fillReposGo, hv]; rfl
    | none =>
      rw [hv] at h
      rcases ih (applyRepoEntry c k0 v0) e h with ⟨pre, k, v, post, hsplit, hpre, hke, hst⟩
      refine ⟨(k0, v0) :: pre, k, v, post, by rw [hsplit]; rfl, ?_, ?_, ?_⟩
      · intro p hp
        rcases List.mem_cons.mp hp with hph | hpt
        · subst hph; exact hv
        · rw [validateRepoConf_eq_of_databases c (applyRepoEntry c k0 v0) p.1 p.2
            (applyRepoEntry_databases c k0 v0).symm]
          exact hpre p hpt
      · rw [validateRepoConf_eq_of_databases c (applyRepoEntry c k0 v0) k v
          (applyRepoEntry_databases c k0 v0).symm]
        exact hke
      · rw [fillReposGo, hv, hst]; rfl


/-! ### Every fault raised by the fill pipeline is a ConfigurationError -/

theorem validateDatabaseConf_isConfig (k : String) (v : JsVal) (e : PCError)
    (h : validateDatabaseConf k v = some e) : e.isConfig = true := by
  rw [validateDatabaseConf] at h
  split_ifs at h
  · injection h with h1; rw [← h1]; rfl
  · injection h with h1; rw [← h1]; rfl

theorem validateConf_isConfig (conf : JsVal) (e : PCError)
    (h : validateConf conf = some e) : e.isConfig = true := by
  rw [validateConf] at h
  split_ifs at h
  · injection h with h1; rw [← h1]; rfl
  · injection h with h1; rw [← h1]; rfl
  · injection h with h1; rw [← h1]; rfl
  · injection h with h1; rw [← h1]; rfl

theorem validateRepoConf_isConfig (c : Connector) (k : String) (v : JsVal) (e : PCError)
    (h : validateRepoConf c k v = some e) : e.isConfig = true := by
  rw [validateRepoConf] at h
  split_ifs at h
  · injection h with h1; rw [← h1]; rfl
  · injection h with h1; rw [← h1]; rfl

theorem fillDatabasesGo_isConfig (l : List (String × JsVal)) :
    ∀ (c : Connector) (e : PCError), (fillDatabasesGo c l).2 = some e →
      e.isConfig = true := by
  induction l with
  | nil => intro c e h; exact Option.noConfusion h
  | cons q rest ih =>
    intro c e h
    rcases q with ⟨k, v⟩
    rw [fillDatabasesGo] at h
    cases hv : validateDatabaseConf k v with
    | some e0 =>
      rw [hv] at h
      injection h with h1
      rw [← h1]
      exact validateDatabaseConf_isConfig k v e0 hv
    | none =>
      rw [hv] at h
      exact ih _ e h

theorem fillReposGo_isConfig (l : List (String × JsVal)) :
    ∀ (c : Connector) (e : PCError), (fillReposGo c l).2 = some e →
      e.isConfig = true := by
  induction l with
  | nil => intro c e h; exact Option.noConfusion h
  | cons q rest ih =>
    intro c e h
    rcases q with ⟨k, v⟩
    rw [fillReposGo] at h
    cases hv : validateRepoConf c k v with
    | some e0 =>
      rw [hv] at h
      injection h with h1
      rw [← h1]
      exact validateRepoConf_isConfig c k v e0 hv
    | none =>
      rw [hv] at h
      exact ih _ e h

theorem fillDatabasesMap_isConfig (c : Connector) (v : JsVal) (e : PCError)
    (h : (fillDatabasesMap c v).2 = some e) : e.isConfig = true := by
  simp only [fillDatabasesMap] at h
  split at h
  · injection h with h1; rw [← h1]; rfl
  · exact fillDatabasesGo_isConfig _ c e h

theorem fillReposMap_isConfig (c : Connector) (v : JsVal) (e : PCError)
    (h : (fillReposMap c v).2 = some e) : e.isConfig = true := by
  simp only [fillReposMap] at h
  split at h
  · injection h with h1; rw [← h1]; rfl
  · exact fillReposGo_isConfig _ c e h

theorem fill_isConfig (c : Connector) (conf : JsVal) (e : PCError)
    (h : (c.fill conf).2 = some e) : e.isConfig = true := by
  rw [Connector.fill] at h
  cases hvc : validateConf conf with
  | some e0 =>
    rw [hvc] at h
    injection h with h1
    rw [← h1]
    exact validateConf_isConfig conf e0 hvc
  | none =>
    rw [hvc] at h
    rcases hdm : fillDatabasesMap c (objGet conf "databases") with ⟨c1, r⟩
    rw [hdm] at h
    cases r with
    | some e0 =>
      injection h with h1
      rw [← h1]
      exact fillDatabasesMap_isConfig c _ e0 (by rw [hdm])
    | none =>
      exact fillReposMap_isConfig c1 _ e h

/-! ### The Registry invariant of spec section 3 -/

theorem applyDbEntry_repoInv (c : Connector) (k : String) (v : JsVal)
    (hinv : RepoInv c) : RepoInv (applyDbEntry c k v) := by
  intro r entry h
  exact mapHas_mapSet_mono _ _ _ _ (hinv r entry h)

theorem fillDatabasesGo_repoInv (l : List (String × JsVal)) :
    ∀ c : Connector, RepoInv c → RepoInv (fillDatabasesGo c l).1 := by
  induction l with
  | nil => intro c h; exact h
  | cons q rest ih =>
    intro c hinv
    rcases q with ⟨k, v⟩
    rw [fillDatabasesGo]
    cases validateDatabaseConf k v with
    | some e => exact hinv
    | none => exact ih _ (applyDbEntry_repoInv c k v hinv)

theorem applyRepoEntry_repoInv (c : Connector) (k : String) (v : JsVal)
    (hinv : RepoInv c) : RepoInv (applyRepoEntry c k v) := by
  intro r entry h
  cases hdb : mapGet c.databases (jsStr v) with
  | none =>
    simp only [applyRepoEntry, hdb] at h ⊢
    exact hinv r entry h
  | some db =>
    simp only [applyRepoEntry, hdb] at h ⊢
    by_cases hr : r = k
    · subst hr
      rw [mapGet_mapSet_self] at h
      injection h with h1
      rw [← h1]
      rw [mapHas, hdb]
      rfl
    · rw [mapGet_mapSet_ne _ _ _ _ hr] at h
      exact hinv r entry h

theorem fillReposGo_repoInv (l : List (String × JsVal)) :
    ∀ c : Connector, RepoInv c → RepoInv (fillReposGo c l).1 := by
  induction l with
  | nil => intro c h; exact h
  | cons q rest ih =>
    intro c hinv
    rcases q with ⟨k, v⟩
    rw [fillReposGo]
    cases validateRepoConf c k v with
    | some e => exact hinv
    | none => exact ih _ (applyRepoEntry_repoInv c k v hinv)


/-! ### Successful application of a well-formed snapshot -/

theorem fill_success_spec (c : Connector) (conf : JsVal) (dbs reps : List (String × JsVal))
    (hdb : objGet conf "databases" = .obj dbs)
    (hrep : objGet conf "repositories" = .obj reps)
    (hdnd : (dbs.map Prod.fst).Nodup)
    (hrnd : (reps.map Prod.fst).Nodup)
    (hdne : dbs ≠ [])
    (hrne : reps ≠ [])
    (hv : SnapshotEntriesValid dbs reps) :
    (c.fill conf).2 = none ∧
    (∀ p ∈ dbs, ∃ db : DatabaseEntry,
      mapGet (c.fill conf).1.databases p.1 = some db ∧
      c.nextPool ≤ db.pool ∧ db.pool < (c.fill conf).1.nextPool) ∧
    (∀ p ∈ reps, ∃ db : DatabaseEntry,
      mapGet (c.fill conf).1.databases (jsStr p.2) = some db ∧
      c.nextPool ≤ db.pool ∧ db.pool < (c.fill conf).1.nextPool ∧
      mapGet (c.fill conf).1.repositories p.1 =
        some { name := p.1, pool := db.pool, databaseName := jsStr p.2 }) ∧
    (∀ r : String, r ∉ reps.map Prod.fst →
      mapGet (c.fill conf).1.repositories r = mapGet c.repositories r) := by
  rcases hv with ⟨hdv0, hrv⟩
  have hdv : ∀ p ∈ dbs, validateDatabaseConf p.1 p.2 = none := by
    intro p hp
    exact Option.isNone_iff_eq_none.mp (hdv0 p hp)
  have hvc : validateConf conf = none := by
    rw [validateConf, hdb, hrep]
    rfl
  have hne1 : ¬ (dbs.isEmpty = true) := by
    cases dbs with
    | nil => exact absurd rfl hdne
    | cons a l => simp [List.isEmpty]
  have hne2 : ¬ (reps.isEmpty = true) := by
    cases reps with
    | nil => exact absurd rfl hrne
    | cons a l => simp [List.isEmpty]
  have hdm : fillDatabasesMap c (objGet conf "databases") = fillDatabasesGo c dbs := by
    rw [hdb]
    simp only [fillDatabasesMap, objEntries]
    rw [if_neg hne1]
  have hrm : ∀ c0 : Connector,
      fillReposMap c0 (objGet conf "repositories") = fillReposGo c0 reps := by
    intro c0
    rw [hrep]
    simp only [fillReposMap, objEntries]
    rw [if_neg hne2]
  have hgo2 : (fillDatabasesGo c dbs).2 = none := fillDatabasesGo_ok dbs c hdv
  have key : c.fill conf = fillReposGo (fillDatabasesGo c dbs).1 reps := by
    rw [Connector.fill, hvc, hdm]
    rcases hx : fillDatabasesGo c dbs with ⟨c1, r⟩
    rw [hx] at hgo2
    simp only at hgo2
    subst hgo2
    show fillReposMap c1 (objGet conf "repositories") = fillReposGo c1 reps
    exact hrm c1
  -- the state after the databases phase
  have hval1 : ∀ p ∈ reps, validateRepoConf (fillDatabasesGo c dbs).1 p.1 p.2 = none := by
    intro p hp
    rcases hrv p hp with ⟨hs, hmem⟩
    rcases List.mem_map.mp hmem with ⟨q, hq, hq1⟩
    rcases fillDatabasesGo_get_mem dbs c hdv hdnd q hq with ⟨db, hget, _, _⟩
    have hhas : mapHas (fillDatabasesGo c dbs).1.databases (jsStr p.2) = true := by
      rw [mapHas, ← hq1, hget]
      rfl
    rw [validateRepoConf, hs, hhas]
    rfl
  have hdbstate : (c.fill conf).1.databases = (fillDatabasesGo c dbs).1.databases := by
    rw [key]
    exact fillReposGo_databases reps _
  have hnpstate : (c.fill conf).1.nextPool = (fillDatabasesGo c dbs).1.nextPool := by
    rw [key]
    exact fillReposGo_nextPool reps _
  refine ⟨?_, ?_, ?_, ?_⟩
  · rw [key]
    exact fillReposGo_ok reps _ hval1
  · intro p hp
    rcases fillDatabasesGo_get_mem dbs c hdv hdnd p hp with ⟨db, hget, hlo, hhi⟩
    refine ⟨db, ?_, hlo, ?_⟩
    · rw [hdbstate]; exact hget
    · rw [hnpstate]; exact hhi
  · intro p hp
    rcases fillReposGo_get_mem reps _ hval1 hrnd p hp with ⟨db, hget, hrget⟩
    rcases hrv p hp with ⟨_, hmem⟩
    rcases List.mem_map.mp hmem with ⟨q, hq, hq1⟩
    rcases fillDatabasesGo_get_mem dbs c hdv hdnd q hq with ⟨db1, hget1, hlo1, hhi1⟩
    have hdbeq : db = db1 := by
      rw [← hq1] at hget
      rw [hget] at hget1
      exact Option.some.inj hget1
    refine ⟨db, ?_, ?_, ?_, ?_⟩
    · rw [hdbstate]; exact hget
    · rw [hdbeq]; exact hlo1
    · rw [hnpstate, hdbeq]; exact hhi1
    · rw [key]; exact hrget
  · intro r hr
    rw [key, fillReposGo_get_notmem reps _ r hr, fillDatabasesGo_repositories]


/-! ### Claim theorems -/

/-- C5: Invariant kept by every operation: every RepositoryEntry stored
in the Registry has a `databaseName` that resolved to an existing
DatabaseEntry at the moment the mapping was accepted; a dangling
repository-to-database reference is rejected by `_validateRepoConf` and
never stored, and a failing application creates no RepositoryEntry for
the offending repository name.  Formalised as preservation of `RepoInv`
by the snapshot-application pipeline `_fill` (the only operation that
mutates the Registry), on both its success and failure paths: any state
reachable from an invariant-satisfying state has no dangling
repository reference. -/
theorem fill_preserves_repoInv (c : Connector) (conf : JsVal)
    (hinv : RepoInv c) : RepoInv (c.fill conf).1 := by
  rw [Connector.fill]
  cases hvc : validateConf conf with
  | some e => exact hinv
  | none =>
    rcases hdm : fillDatabasesMap c (objGet conf "databases") with ⟨c1, r⟩
    have hinv1 : RepoInv c1 := by
      simp only [fillDatabasesMap] at hdm
      split at hdm
      · injection hdm with h1 h2
        rw [← h1]
        exact hinv
      · have h := fillDatabasesGo_repoInv (objEntries (objGet conf "databases")) c hinv
        rw [hdm] at h
        exact h
    cases r with
    | some e => exact hinv1
    | none =>
      simp only [fillReposMap]
      split
      · exact hinv1
      · exact fillReposGo_repoInv _ c1 hinv1

/-- Witness for C5: the invariant, instantiated at a fresh Connector
(whose empty repositories map satisfies it vacuously) and a concrete
valid snapshot. -/
theorem fill_preserves_repoInv_witness :
    RepoInv (Connector.init.fill (JsVal.obj
      [("databases", .obj [("d", .obj [("host", .str "h")])]),
       ("repositories", .obj [("r", .str "d")])])).1 :=
  fill_preserves_repoInv Connector.init
    (JsVal.obj [("databases", .obj [("d", .obj [("host", .str "h")])]),
                ("repositories", .obj [("r", .str "d")])])
    (fun _r _entry h => Option.noConfusion h)

/-- C6: for every `connect` call on a mapped repository whose pool
acquire implementation throws synchronously, the thrown error is
emitted on the `error` notification channel, the optional callback is
not invoked, and the returned promise neither resolves nor rejects. -/
theorem connect_sync_throw_emits_error (c : Connector) (r : String) (hasCb : Bool)
    (e : String) (hlen : r.length ≠ 0)
    (hmem : (mapGet c.repositories r).isSome = true) :
    c.connect r hasCb (.throws e) =
      .ok { cbCalls := [], promise := .pending, errorEvents := [e] } := by
  rw [Connector.connect, if_neg hlen]
  rcases Option.isSome_iff_exists.mp hmem with ⟨entry, hentry⟩
  rw [hentry]

/-- Witness for C6 at a concrete connector, repository and error. -/
theorem connect_sync_throw_emits_error_witness :
    (Connector.init.fill (JsVal.obj
      [("databases", .obj [("d", .obj [("host", .str "h")])]),
       ("repositories", .obj [("r", .str "d")])])).1.connect "r" true
        (.throws "boom") =
      .ok { cbCalls := [], promise := .pending, errorEvents := ["boom"] } :=
  connect_sync_throw_emits_error
    (Connector.init.fill (JsVal.obj
      [("databases", .obj [("d", .obj [("host", .str "h")])]),
       ("repositories", .obj [("r", .str "d")])])).1
    "r" true "boom" (by decide) (by decide)

/-- C7: for every `connect` call whose pool acquisition succeeds, the
callback, if one was supplied, is invoked with `(null, client, done)`,
and the returned promise resolves with the client handle alone — the
release function appears only in the callback arguments, never in the
resolved value (`PromiseState.resolved` carries only the handle, as the
source resolves with `client` by itself). -/
theorem connect_success_callback_and_promise (c : Connector) (r : String)
    (hasCb : Bool) (client done : Nat) (hlen : r.length ≠ 0)
    (hmem : (mapGet c.repositories r).isSome = true) :
    c.connect r hasCb (.callsBack none client done) =
      .ok { cbCalls := if hasCb then [.ok client done] else []
            promise := .resolved client
            errorEvents := [] } := by
  rw [Connector.connect, if_neg hlen]
  rcases Option.isSome_iff_exists.mp hmem with ⟨entry, hentry⟩
  rw [hentry]

/-- Witness for C7 at a concrete connector, client handle 7 and release
handle 9. -/
theorem connect_success_callback_and_promise_witness :
    (Connector.init.fill (JsVal.obj
      [("databases", .obj [("d", .obj [("host", .str "h")])]),
       ("repositories", .obj [("r", .str "d")])])).1.connect "r" true
        (.callsBack none 7 9) =
      .ok { cbCalls := [.ok 7 9], promise := .resolved 7, errorEvents := [] } :=
  connect_success_callback_and_promise
    (Connector.init.fill (JsVal.obj
      [("databases", .obj [("d", .obj [("host", .str "h")])]),
       ("repositories", .obj [("r", .str "d")])])).1
    "r" true 7 9 (by decide) (by decide)

/-- C9: a snapshot whose `databases` mapping has zero keys, or whose
`repositories` mapping has zero keys, is always rejected with a
configuration fault (`add` throws it; `load` rejects with it — both
surface the fault returned by `_fill`), even though every entry of an
empty mapping vacuously passes the per-entry rules; a merged
configuration carrying only databases or only repositories can never be
applied. -/
theorem fill_rejects_empty_maps (c : Connector) (conf : JsVal)
    (h : objGet conf "databases" = .obj [] ∨ objGet conf "repositories" = .obj []) :
    ∃ e : PCError, (c.fill conf).2 = some e ∧ e.isConfig = true := by
  suffices hs : (c.fill conf).2.isSome = true by
    rcases Option.isSome_iff_exists.mp hs with ⟨e, he⟩
    exact ⟨e, he, fill_isConfig c conf e he⟩
  rw [Connector.fill]
  cases hvc : validateConf conf with
  | some e => rfl
  | none =>
    rcases h with h | h
    · have hdm : fillDatabasesMap c (objGet conf "databases") =
          (c, some (.config .noDatabases .undefined)) := by
        rw [h]
        rfl
      rw [hdm]
      rfl
    · rcases hdm : fillDatabasesMap c (objGet conf "databases") with ⟨c1, r⟩
      cases r with
      | some e => rfl
      | none =>
        have hrm : fillReposMap c1 (objGet conf "repositories") =
            (c1, some (.config .noRepositories .undefined)) := by
          rw [h]
          rfl
        show (fillReposMap c1 (objGet conf "repositories")).2.isSome = true
        rw [hrm]
        rfl

/-- Witness for C9: a snapshot with an empty `databases` mapping and a
well-shaped `repositories` mapping is rejected with a configuration
fault. -/
theorem fill_rejects_empty_maps_witness :
    ∃ e : PCError,
      (Connector.init.fill (JsVal.obj
        [("databases", .obj []),
         ("repositories", .obj [("r", .str "d")])])).2 = some e ∧
      e.isConfig = true :=
  fill_rejects_empty_maps Connector.init
    (JsVal.obj [("databases", .obj []), ("repositories", .obj [("r", .str "d")])])
    (Or.inl rfl)


/-- C3 counterexample: a snapshot whose `databases` contains an entry
with an empty `host` (a rule-2 failure) and which has no `repositories`
key.  The claim predicts the rule-2 database-entry fault
(`dbConfHostStr`); the code reports the repositories-key fault, because
`validateConf` checks the presence/shape of `repositories` before
`_fillDatabasesMap` ever validates a database entry. -/
theorem validation_order_cex :
    ((Connector.init.fill (JsVal.obj
      [("databases", .obj [("a", .obj [("host", .str "")])])])).2.map
        PCError.configMsg) = some (some ErrMsg.noRepositories) ∧
    ErrMsg.noRepositories ≠ ErrMsg.dbConfHostStr :=
  ⟨rfl, by decide⟩

/-- C3 amended: validation applies the rules in the order (1) databases
key present and a plain mapping, (3) repositories key present and a
plain mapping, (2) each databases entry valid, (4) each repositories
entry a valid reference — the two top-level key checks run first in
`validateConf`, before any per-entry validation.  Consequently, for
every snapshot with a missing or non-mapping `repositories` key — with
or without an invalid database entry — the reported fault is the
repositories-key fault and the Registry is untouched. -/
theorem repositories_key_checked_before_db_entries (c : Connector) (conf : JsVal)
    (h1 : elv (objGet conf "databases") = true)
    (h2 : isPojo (objGet conf "databases") = true)
    (h3 : elv (objGet conf "repositories") = false ∨
          isPojo (objGet conf "repositories") = false) :
    ∃ m : ErrMsg, c.fill conf = (c, some (.config m conf)) ∧
      (m = ErrMsg.noRepositories ∨ m = ErrMsg.reposPojo) := by
  rcases h3 with h3 | h3
  · refine ⟨ErrMsg.noRepositories, ?_, Or.inl rfl⟩
    have hvc : validateConf conf = some (.config .noRepositories conf) := by
      simp [validateConf, h1, h2, h3]
    rw [Connector.fill, hvc]
  · by_cases h4 : elv (objGet conf "repositories") = true
    · refine ⟨ErrMsg.reposPojo, ?_, Or.inr rfl⟩
      have hvc : validateConf conf = some (.config .reposPojo conf) := by
        simp [validateConf, h1, h2, h3, h4]
      rw [Connector.fill, hvc]
    · refine ⟨ErrMsg.noRepositories, ?_, Or.inl rfl⟩
      rw [Bool.not_eq_true] at h4
      have hvc : validateConf conf = some (.config .noRepositories conf) := by
        simp [validateConf, h1, h2, h4]
      rw [Connector.fill, hvc]

/-- Witness for the amended C3: the counterexample snapshot (invalid
database entry, missing `repositories` key) yields the
repositories-key fault. -/
theorem repositories_key_checked_before_db_entries_witness :
    ∃ m : ErrMsg,
      Connector.init.fill
          (JsVal.obj [("databases", .obj [("a", .obj [("host", .str "")])])]) =
        (Connector.init,
         some (.config m
           (JsVal.obj [("databases", .obj [("a", .obj [("host", .str "")])])]))) ∧
      (m = ErrMsg.noRepositories ∨ m = ErrMsg.reposPojo) :=
  repositories_key_checked_before_db_entries Connector.init
    (JsVal.obj [("databases", .obj [("a", .obj [("host", .str "")])])])
    rfl rfl (Or.inl rfl)

/-- C4 counterexample: after a first snapshot has added database `d`,
a second snapshot whose own `databases` does not contain `d` still gets
its repository mapping `r -> d` accepted and stored, because
`_validateRepoConf` consults the accumulated `this.databases` map, not
the snapshot being applied.  The claim predicts rejection with a
configuration fault. -/
theorem repo_mapping_cross_snapshot_cex :
    "d" ∉ (objEntries (objGet (JsVal.obj
        [("databases", .obj [("e2", .obj [("host", .str "h")])]),
         ("repositories", .obj [("r", .str "d")])]) "databases")).map Prod.fst ∧
    ((Connector.init.fill (JsVal.obj
        [("databases", .obj [("d", .obj [("host", .str "h")])]),
         ("repositories", .obj [("r0", .str "d")])])).1.fill (JsVal.obj
        [("databases", .obj [("e2", .obj [("host", .str "h")])]),
         ("repositories", .obj [("r", .str "d")])])).2 = none ∧
    ((Connector.init.fill (JsVal.obj
        [("databases", .obj [("d", .obj [("host", .str "h")])]),
         ("repositories", .obj [("r0", .str "d")])])).1.fill (JsVal.obj
        [("databases", .obj [("e2", .obj [("host", .str "h")])]),
         ("repositories", .obj [("r", .str "d")])])).1.resolve "r" =
      some { name := "r", pool := 0, databaseName := "d" } :=
  ⟨by decide, rfl, rfl⟩

/-- C4 amended: a repository mapping `repositories[r] = d` is accepted
exactly when `d` is a non-empty string naming a key of the Registry
`databases` map at the moment of validation — a set that contains the
current snapshot entries (applied just before) and every database
added by earlier add/load calls; a name absent from that map is
rejected with a configuration fault. -/
theorem validateRepoConf_accepts_iff_registry_has (c : Connector) (key s : String) :
    validateRepoConf c key (.str s) = none ↔
      (0 < s.length ∧ mapHas c.databases s = true) := by
  by_cases h1 : 0 < s.length
  · by_cases h2 : mapHas c.databases s = true
    · simp [validateRepoConf, isNonEmptyString, jsStr, h1, h2]
    · simp [validateRepoConf, isNonEmptyString, jsStr, h1, h2]
  · simp [validateRepoConf, isNonEmptyString, jsStr, h1]

/-- Witness for the amended C4: a Registry that already has database
`d` from an earlier call accepts the mapping `r -> d`. -/
theorem validateRepoConf_accepts_iff_registry_has_witness :
    validateRepoConf
        { databases := [("d", { name := "d", pool := 0 })],
          repositories := [], nextPool := 1 } "r" (.str "d") = none ↔
      (0 < "d".length ∧
       mapHas [("d", ({ name := "d", pool := 0 } : DatabaseEntry))] "d" = true) :=
  validateRepoConf_accepts_iff_registry_has
    { databases := [("d", { name := "d", pool := 0 })],
      repositories := [], nextPool := 1 } "r" "d"


/-- C1 counterexample: a snapshot whose `databases` holds a valid entry
`a` followed by an entry `b` with an empty host.  `add` raises the
rule-2 configuration fault for `b`, yet the Registry `databases` map now
holds the entry for `a` — partial mutation from the rejected snapshot,
contradicting "left exactly as they were before the call". -/
theorem add_partial_mutation_cex :
    ((Connector.init.add1 (JsVal.obj
      [("databases", .obj [("a", .obj [("host", .str "h")]),
                           ("b", .obj [("host", .str "")])]),
       ("repositories", .obj [("r", .str "a")])])).2.map PCError.configMsg) =
      some (some ErrMsg.dbConfHostStr) ∧
    (Connector.init.add1 (JsVal.obj
      [("databases", .obj [("a", .obj [("host", .str "h")]),
                           ("b", .obj [("host", .str "")])]),
       ("repositories", .obj [("r", .str "a")])])).1.databases =
      [("a", { name := "a", pool := 0 })] ∧
    [("a", ({ name := "a", pool := 0 } : DatabaseEntry))] ≠
      Connector.init.databases :=
  ⟨rfl, rfl, by decide⟩

/-- C1 amended: if validation of any sub-entry fails, application of
the snapshot stops at the first failing entry and `add`/`load` report a
configuration fault, but there is no rollback: the Registry keeps the
mutations for the entries of the same snapshot that validated before
the failure.  Precisely, every fault produced by `_fill` is a
configuration fault, and when a per-entry loop fails, the list of
entries splits around a first failing entry such that the resulting
state is exactly the starting state with the validated preceding
entries applied in order. -/
theorem fill_failure_applies_valid_preceding_entries :
    (∀ (c : Connector) (conf : JsVal) (e : PCError),
      (c.fill conf).2 = some e → e.isConfig = true) ∧
    (∀ (c : Connector) (dbs : List (String × JsVal)) (e : PCError),
      (fillDatabasesGo c dbs).2 = some e →
      ∃ pre k v post, dbs = pre ++ (k, v) :: post ∧
        (∀ p ∈ pre, validateDatabaseConf p.1 p.2 = none) ∧
        validateDatabaseConf k v = some e ∧
        (fillDatabasesGo c dbs).1 =
          pre.foldl (fun a p => applyDbEntry a p.1 p.2) c) ∧
    (∀ (c : Connector) (reps : List (String × JsVal)) (e : PCError),
      (fillReposGo c reps).2 = some e →
      ∃ pre k v post, reps = pre ++ (k, v) :: post ∧
        (∀ p ∈ pre, validateRepoConf c p.1 p.2 = none) ∧
        validateRepoConf c k v = some e ∧
        (fillReposGo c reps).1 =
          pre.foldl (fun a p => applyRepoEntry a p.1 p.2) c) :=
  ⟨fill_isConfig,
   fun c dbs e h => fillDatabasesGo_err dbs c e h,
   fun c reps e h => fillReposGo_err reps c e h⟩

/-- Witness for the amended C1, at the counterexample snapshot: the
databases loop fails on `b`, the fault is the rule-2 fault for `b`, and
the final state is the initial state with just the valid entry `a`
applied. -/
theorem fill_failure_applies_valid_preceding_entries_witness :
    ∃ pre k v post,
      ([(("a" : String), JsVal.obj [("host", .str "h")]),
        ("b", JsVal.obj [("host", .str "")])]) = pre ++ (k, v) :: post ∧
      (∀ p ∈ pre, validateDatabaseConf p.1 p.2 = none) ∧
      validateDatabaseConf k v =
        some (.config .dbConfHostStr
          (.obj [("key", .str "b"), ("value", .obj [("host", .str "")])])) ∧
      (fillDatabasesGo Connector.init
        [("a", JsVal.obj [("host", .str "h")]),
         ("b", JsVal.obj [("host", .str "")])]).1 =
        pre.foldl (fun a p => applyDbEntry a p.1 p.2) Connector.init :=
  fill_failure_applies_valid_preceding_entries.2.1 Connector.init
    [("a", JsVal.obj [("host", .str "h")]), ("b", JsVal.obj [("host", .str "")])]
    (.config .dbConfHostStr
      (.obj [("key", .str "b"), ("value", .obj [("host", .str "")])]))
    rfl

/-- C2 counterexample: the empty string is a legal repository key.  The
snapshot `{databases: {d}, repositories: {"": "d"}}` is valid (every
rule 1-4 passes) and applies successfully, and `resolve` finds the
entry, but `getPool("")` raises the usage fault for ill-formed names
instead of succeeding — so resolve/getPool do not both succeed for
every repository name of a valid snapshot. -/
theorem valid_snapshot_empty_name_getPool_cex :
    (Connector.init.fill (JsVal.obj
      [("databases", .obj [("d", .obj [("host", .str "h")])]),
       ("repositories", .obj [("", .str "d")])])).2 = none ∧
    (Connector.init.fill (JsVal.obj
      [("databases", .obj [("d", .obj [("host", .str "h")])]),
       ("repositories", .obj [("", .str "d")])])).1.resolve "" =
      some { name := "", pool := 0, databaseName := "d" } ∧
    (Connector.init.fill (JsVal.obj
      [("databases", .obj [("d", .obj [("host", .str "h")])]),
       ("repositories", .obj [("", .str "d")])])).1.getPool "" =
      .error (.typeErr .argRepoStr) :=
  ⟨rfl, rfl, rfl⟩

/-- C2 amended: for every valid snapshot, after one successful
application, `resolve` succeeds for every repository name `r` of the
snapshot and returns exactly the pool handle opened for
`databases[repositories[r]]` during that application (the stored
database entry's pool, freshly allocated in this call), and `getPool`
does the same for every non-empty repository name (for the empty name
it raises the ill-formed-name usage fault even though the entry is
stored). -/
theorem fill_success_resolve_getPool (c : Connector) (conf : JsVal)
    (dbs reps : List (String × JsVal))
    (hdb : objGet conf "databases" = .obj dbs)
    (hrep : objGet conf "repositories" = .obj reps)
    (hdnd : (dbs.map Prod.fst).Nodup)
    (hrnd : (reps.map Prod.fst).Nodup)
    (hdne : dbs ≠ [])
    (hrne : reps ≠ [])
    (hv : SnapshotEntriesValid dbs reps) :
    (c.fill conf).2 = none ∧
    ∀ p ∈ reps, ∃ db : DatabaseEntry,
      mapGet (c.fill conf).1.databases (jsStr p.2) = some db ∧
      c.nextPool ≤ db.pool ∧ db.pool < (c.fill conf).1.nextPool ∧
      (c.fill conf).1.resolve p.1 =
        some { name := p.1, pool := db.pool, databaseName := jsStr p.2 } ∧
      (0 < p.1.length → (c.fill conf).1.getPool p.1 = .ok db.pool) := by
  obtain ⟨h1, _h2, h3, _h4⟩ :=
    fill_success_spec c conf dbs reps hdb hrep hdnd hrnd hdne hrne hv
  refine ⟨h1, ?_⟩
  intro p hp
  rcases h3 p hp with ⟨db, hget, hlo, hhi, hrget⟩
  refine ⟨db, hget, hlo, hhi, ?_, ?_⟩
  · rw [Connector.resolve]
    exact hrget
  · intro hlen
    rw [Connector.getPool, if_neg (Nat.pos_iff_ne_zero.mp hlen), hrget]

/-- Witness for the amended C2 at the one-database, one-repository
snapshot `snapC`. -/
theorem fill_success_resolve_getPool_witness :
    (Connector.init.fill snapC).2 = none ∧
    ∀ p ∈ snapCReps, ∃ db : DatabaseEntry,
      mapGet (Connector.init.fill snapC).1.databases (jsStr p.2) = some db ∧
      Connector.init.nextPool ≤ db.pool ∧
      db.pool < (Connector.init.fill snapC).1.nextPool ∧
      (Connector.init.fill snapC).1.resolve p.1 =
        some { name := p.1, pool := db.pool, databaseName := jsStr p.2 } ∧
      (0 < p.1.length →
        (Connector.init.fill snapC).1.getPool p.1 = .ok db.pool) :=
  fill_success_resolve_getPool Connector.init snapC snapCDbs snapCReps
    rfl rfl (by decide) (by decide) (List.cons_ne_nil _ _) (List.cons_ne_nil _ _)
    ⟨by decide, by decide⟩


/-- C8: applying the same valid snapshot twice yields a Registry
observably equivalent to applying it once for all lookup operations —
`resolve` succeeds for exactly the same names, with the same
`databaseName` — except that every re-applied database key gets a fresh
pool: the handle stored after the second application is distinct from
the one stored after the first. -/
theorem fill_idempotent_lookups_fresh_pools (c : Connector) (conf : JsVal)
    (dbs reps : List (String × JsVal))
    (hdb : objGet conf "databases" = .obj dbs)
    (hrep : objGet conf "repositories" = .obj reps)
    (hdnd : (dbs.map Prod.fst).Nodup)
    (hrnd : (reps.map Prod.fst).Nodup)
    (hdne : dbs ≠ [])
    (hrne : reps ≠ [])
    (hv : SnapshotEntriesValid dbs reps) :
    (c.fill conf).2 = none ∧
    ((c.fill conf).1.fill conf).2 = none ∧
    (∀ r : String, (((c.fill conf).1.fill conf).1.resolve r).isSome =
      ((c.fill conf).1.resolve r).isSome) ∧
    (∀ (r : String) (e1 e2 : RepositoryEntry),
      (c.fill conf).1.resolve r = some e1 →
      ((c.fill conf).1.fill conf).1.resolve r = some e2 →
      e2.databaseName = e1.databaseName) ∧
    (∀ p ∈ dbs, ∃ d1 d2 : DatabaseEntry,
      mapGet (c.fill conf).1.databases p.1 = some d1 ∧
      mapGet ((c.fill conf).1.fill conf).1.databases p.1 = some d2 ∧
      d2.pool ≠ d1.pool) := by
  obtain ⟨h1, hdbs1, hreps1, hframe1⟩ :=
    fill_success_spec c conf dbs reps hdb hrep hdnd hrnd hdne hrne hv
  obtain ⟨h2, hdbs2, hreps2, hframe2⟩ :=
    fill_success_spec (c.fill conf).1 conf dbs reps hdb hrep hdnd hrnd hdne hrne hv
  refine ⟨h1, h2, ?_, ?_, ?_⟩
  · intro r
    by_cases hr : r ∈ reps.map Prod.fst
    · rcases List.mem_map.mp hr with ⟨q, hq, hq1⟩
      rcases hreps1 q hq with ⟨db1, _, _, _, hget1⟩
      rcases hreps2 q hq with ⟨db2, _, _, _, hget2⟩
      simp only [Connector.resolve]
      rw [← hq1, hget1, hget2]
      rfl
    · have hfr := hframe2 r hr
      simp only [Connector.resolve]
      rw [hfr]
  · intro r e1 e2 he1 he2
    simp only [Connector.resolve] at he1 he2
    by_cases hr : r ∈ reps.map Prod.fst
    · rcases List.mem_map.mp hr with ⟨q, hq, hq1⟩
      rcases hreps1 q hq with ⟨db1, _, _, _, hget1⟩
      rcases hreps2 q hq with ⟨db2, _, _, _, hget2⟩
      rw [← hq1] at he1 he2
      rw [hget1] at he1
      rw [hget2] at he2
      rw [← Option.some.inj he1, ← Option.some.inj he2]
    · have hfr := hframe2 r hr
      rw [hfr, he1] at he2
      rw [Option.some.inj he2]
  · intro p hp
    rcases hdbs1 p hp with ⟨d1, hg1, _hlo1, hhi1⟩
    rcases hdbs2 p hp with ⟨d2, hg2, hlo2, _hhi2⟩
    refine ⟨d1, d2, hg1, hg2, ?_⟩
    exact Ne.symm (Nat.ne_of_lt (Nat.lt_of_lt_of_le hhi1 hlo2))

/-- Witness for C8 at the snapshot `snapC` applied twice from a fresh
Connector. -/
theorem fill_idempotent_lookups_fresh_pools_witness :
    (Connector.init.fill snapC).2 = none ∧
    ((Connector.init.fill snapC).1.fill snapC).2 = none ∧
    (∀ r : String, (((Connector.init.fill snapC).1.fill snapC).1.resolve r).isSome =
      ((Connector.init.fill snapC).1.resolve r).isSome) ∧
    (∀ (r : String) (e1 e2 : RepositoryEntry),
      (Connector.init.fill snapC).1.resolve r = some e1 →
      ((Connector.init.fill snapC).1.fill snapC).1.resolve r = some e2 →
      e2.databaseName = e1.databaseName) ∧
    (∀ p ∈ snapCDbs, ∃ d1 d2 : DatabaseEntry,
      mapGet (Connector.init.fill snapC).1.databases p.1 = some d1 ∧
      mapGet ((Connector.init.fill snapC).1.fill snapC).1.databases p.1 = some d2 ∧
      d2.pool ≠ d1.pool) :=
  fill_idempotent_lookups_fresh_pools Connector.init snapC snapCDbs snapCReps
    rfl rfl (by decide) (by decide) (List.cons_ne_nil _ _) (List.cons_ne_nil _ _)
    ⟨by decide, by decide⟩

/-- C10: re-applying a database key does not update RepositoryEntries
created earlier.  First, a frame property: a repository name not among
the applied snapshot `repositories` keys has its stored entry unchanged
by the application (on success and failure paths alike).  Second, the
scenario: after `snapA` (database `d`, repository `r1`) and then
`snapB` (re-adds `d` with a fresh pool, adds repository `r2`), `r1`
still resolves to the old pool 0 while `r2` resolves to the new pool 1,
both with `databaseName` `d`, and the `databases` entry for `d` now
holds pool 1. -/
theorem reapply_db_frame_and_stale_repo_pools :
    (∀ (c : Connector) (conf : JsVal) (r : String),
      r ∉ (objEntries (objGet conf "repositories")).map Prod.fst →
      mapGet (c.fill conf).1.repositories r = mapGet c.repositories r) ∧
    ((Connector.init.fill snapA).2 = none ∧
     ((Connector.init.fill snapA).1.fill snapB).2 = none ∧
     ((Connector.init.fill snapA).1.fill snapB).1.resolve "r1" =
       some { name := "r1", pool := 0, databaseName := "d" } ∧
     ((Connector.init.fill snapA).1.fill snapB).1.resolve "r2" =
       some { name := "r2", pool := 1, databaseName := "d" } ∧
     mapGet ((Connector.init.fill snapA).1.fill snapB).1.databases "d" =
       some { name := "d", pool := 1 } ∧
     ((Connector.init.fill snapA).1.fill snapB).1.getPool "r1" = .ok 0 ∧
     ((Connector.init.fill snapA).1.fill snapB).1.getPool "r2" = .ok 1) := by
  constructor
  · intro c conf r hr
    rw [Connector.fill]
    cases hvc : validateConf conf with
    | some e => rfl
    | none =>
      rcases hdm : fillDatabasesMap c (objGet conf "databases") with ⟨c1, r0⟩
      have hc1 : c1.repositories = c.repositories := by
        simp only [fillDatabasesMap] at hdm
        split at hdm
        · injection hdm with hh1 hh2
          rw [← hh1]
        · have hh := fillDatabasesGo_repositories
            (objEntries (objGet conf "databases")) c
          rw [hdm] at hh
          exact hh
      cases r0 with
      | some e =>
        show mapGet c1.repositories r = mapGet c.repositories r
        rw [hc1]
      | none =>
        show mapGet (fillReposMap c1 (objGet conf "repositories")).1.repositories r =
          mapGet c.repositories r
        simp only [fillReposMap]
        split
        · show mapGet c1.repositories r = mapGet c.repositories r
          rw [hc1]
        · rw [fillReposGo_get_notmem _ _ _ hr, hc1]
  · exact ⟨rfl, rfl, rfl, rfl, rfl, rfl, rfl⟩

/-- Witness for C10's frame property: applying `snapB` (whose
repositories keys are just `r2`) leaves the stored entry for `r1`
unchanged. -/
theorem reapply_db_frame_and_stale_repo_pools_witness :
    mapGet ((Connector.init.fill snapA).1.fill snapB).1.repositories "r1" =
      mapGet (Connector.init.fill snapA).1.repositories "r1" :=
  reapply_db_frame_and_stale_repo_pools.1 (Connector.init.fill snapA).1 snapB "r1"
    (by decide)

end PgConnector
